import Mathlib

/-!
# mailyak: the SMTP session driver and the diagnostic rendering of `mailyak.go`

A shallow embedding of `Send`, `SendMail`, `String` and `New`.

* A Go `string` is a Lean `String`.  The bytes 0x0D and 0x0A occur in the
  UTF-8 encoding of a text exactly where the characters CR and LF occur, so
  the line guard is stated on characters.
* A Go `[]byte` is a `List Nat`.
* The network is an explicit environment (`Server`): every call made on the
  SMTP client is appended to a history, and the server answers a call as a
  function of the whole history of calls made before it.  `SendMail`
  returns that history together with the Go `error` result (`none` is `nil`).
-/

namespace Mailyak

/-- Go `string`. -/
abbrev GoString := String

/-- Go `[]byte`. -/
abbrev Bytes := List Nat

/-- Go `error` values: the guard's validation error, or an error produced by
a build step or by a call on the SMTP client. -/
inductive Error where
  | HeaderInjection
  | failure (msg : GoString)
deriving DecidableEq, Repr

/-- The credential `smtp.Auth`; opaque to this package. -/
structure Auth where
  secret : GoString
deriving DecidableEq, Repr

/-- The two fields of `tls.Config` that `SendMail` sets. -/
structure TLSConfig where
  ServerName : GoString
  InsecureSkipVerify : Bool
deriving DecidableEq, Repr

/-- Modelled from the spec: the type `BodyPart` is declared outside
mailyak.go; a body variant holds a byte sequence and reports its length. -/
structure BodyPart where
  buf : Bytes
deriving DecidableEq, Repr

/-- `BodyPart.String()` followed by `len`: the byte length of the body. -/
def BodyPart.len (b : BodyPart) : Nat := b.buf.length

/-- Modelled from the spec: the type `attachment` is declared outside
mailyak.go; an attachment is a filename, a MIME content type and raw bytes,
and reading its content can fail. -/
structure attachment where
  filename : GoString
  mimeType : GoString
  content : Except Error Bytes

/-- The struct `MailYak` (mailyak.go, lines 15-32). `auth = none` is a nil
interface value; `trimRegex` is kept as the source of its pattern. -/
structure MailYak where
  html : BodyPart
  plain : BodyPart
  insecureSkipVerify : Bool
  toAddrs : List GoString
  ccAddrs : List GoString
  bccAddrs : List GoString
  subject : GoString
  fromAddr : GoString
  fromName : GoString
  replyTo : GoString
  attachments : List attachment
  auth : Option Auth
  trimRegex : GoString
  host : GoString
  writeBccHeader : Bool

/-- `New` (mailyak.go, lines 46-54): every field not listed is the zero value. -/
def New (host : GoString) (auth : Option Auth) (insecureSkipVerify : Bool) : MailYak :=
  { html := ⟨[]⟩
    plain := ⟨[]⟩
    insecureSkipVerify := insecureSkipVerify
    toAddrs := []
    ccAddrs := []
    bccAddrs := []
    subject := ""
    fromAddr := ""
    fromName := ""
    replyTo := ""
    attachments := []
    auth := auth
    trimRegex := "\r?\n"
    host := host
    writeBccHeader := false }

/-- The calls `SendMail` makes on the network and on the SMTP client, and
the line it prints when the upgrade fails. -/
inductive Action where
  | dial (addr : GoString)
  | hello
  | startTLS (config : TLSConfig)
  | println (err : Error)
  | auth (a : Auth)
  | mail (sender : GoString)
  | rcpt (addr : GoString)
  | data
  | write (msg : Bytes)
  | closeData
  | quit
  | close
deriving DecidableEq, Repr

/-- The environment of one `SendMail` call. `Dial` and the client type are
defined outside mailyak.go, so their behaviour is a parameter: `reply h act`
is the error (if any) returned by the call `act` made after the calls `h`,
`ext h` is the client's `ext` map after the calls `h` (its keys; `none` is a
nil map) and `serverName h` its `serverName` field. -/
structure Server where
  reply : List Action → Action → Option Error
  ext : List Action → Option (List GoString)
  serverName : List Action → GoString

/-- The history of calls made so far, with the error of the last one. -/
abbrev Run := List Action × Option Error

/-- A line contains a carriage-return or a line-feed. -/
def containsCRLF (line : GoString) : Prop := '\r' ∈ line.data ∨ '\n' ∈ line.data

instance (line : GoString) : Decidable (containsCRLF line) := by
  unfold containsCRLF; infer_instance

/-- Modelled from the spec: `validateLine` is defined outside mailyak.go;
it fails with `HeaderInjection` when the value contains any carriage-return
or line-feed byte, and has no side effect. -/
def validateLine (line : GoString) : Option Error :=
  if containsCRLF line then some Error.HeaderInjection else none

/-- Modelled from the spec: the client method `Extension` is defined outside
mailyak.go; it tells whether the server advertised the named capability in
the extension set captured by the greeting. -/
def Extension (ext : Option (List GoString)) (name : GoString) : Bool :=
  match ext with
  | none => false
  | some m => decide (name ∈ m)

/-- Modelled from the spec: `buildMime` is defined outside mailyak.go; it
fails only if an attachment's declared content cannot be read, and an empty
message is valid.  The serialisation itself is the parameter `render`. -/
def buildMime (render : MailYak → Bytes) (m : MailYak) : Except Error Bytes :=
  match m.attachments.findSome? (fun a =>
      match a.content with
      | .error e => some e
      | .ok _ => none) with
  | some e => .error e
  | none => .ok (render m)

/-- One call on the client: it is recorded, and the server answers it. -/
def call (s : Server) (h : List Action) (act : Action) : Run :=
  (h ++ [act], s.reply h act)

/-- Sequencing with `if err != nil { return err }`. -/
def Run.andThen (r : Run) (k : List Action → Run) : Run :=
  match r.2 with
  | some _ => r
  | none => k r.1

/-- The loop of lines 127-131: the first recipient that fails the guard
gives the error. -/
def validateRecipients : List GoString → Option Error
  | [] => none
  | recp :: rest =>
    match validateLine recp with
    | some err => some err
    | none => validateRecipients rest

/-- Lines 142-145: the TLS configuration; `hook` is the package variable
`testHookStartTLS` (`none` is nil), which receives the configuration and may
change it. -/
def tlsConfig (hook : Option (TLSConfig → TLSConfig)) (m : MailYak) (s : Server)
    (h : List Action) : TLSConfig :=
  let config : TLSConfig :=
    { ServerName := s.serverName h, InsecureSkipVerify := m.insecureSkipVerify }
  match hook with
  | some f => f config
  | none => config

/-- Lines 141-150: the upgrade is attempted when `STARTTLS` is advertised;
its failure is printed and returned. -/
def startTLSStep (hook : Option (TLSConfig → TLSConfig)) (m : MailYak) (s : Server)
    (h : List Action) : Run :=
  if Extension (s.ext h) "STARTTLS" then
    let config := tlsConfig hook m s h
    match s.reply h (.startTLS config) with
    | some err => (h ++ [.startTLS config, .println err], some err)
    | none => (h ++ [.startTLS config], none)
  else (h, none)

/-- Lines 152-158: authentication is attempted when a credential is given,
the `ext` map is not nil and it has the key `AUTH`. -/
def authStep (s : Server) (a : Option Auth) (h : List Action) : Run :=
  match a, s.ext h with
  | some cred, some ext => if "AUTH" ∈ ext then call s h (.auth cred) else (h, none)
  | _, _ => (h, none)

/-- The loop of lines 162-166. -/
def rcptLoop (s : Server) : List GoString → List Action → Run
  | [], h => (h, none)
  | addr :: rest, h =>
    match s.reply h (.rcpt addr) with
    | some err => (h ++ [.rcpt addr], some err)
    | none => rcptLoop s rest (h ++ [.rcpt addr])

/-- Lines 159-166: mail-from, then the recipients. -/
def envelope (s : Server) (sender : GoString) (rcpts : List GoString)
    (h : List Action) : Run :=
  (call s h (.mail sender)).andThen fun h =>
  rcptLoop s rcpts h

/-- Lines 167-179: the data phase and `Quit`. -/
def payload (s : Server) (msg : Bytes) (h : List Action) : Run :=
  (call s h .data).andThen fun h =>
  (call s h (.write msg)).andThen fun h =>
  (call s h .closeData).andThen fun h =>
  call s h .quit

/-- Lines 137-158: the greeting, the opportunistic upgrade and the
authentication. -/
def negotiate (hook : Option (TLSConfig → TLSConfig)) (m : MailYak) (s : Server)
    (a : Option Auth) (h : List Action) : Run :=
  (call s h .hello).andThen fun h =>
  (startTLSStep hook m s h).andThen fun h =>
  authStep s a h

/-- Lines 137-179: what `SendMail` does on an open connection, before the
deferred `Close`. -/
def session (hook : Option (TLSConfig → TLSConfig)) (m : MailYak) (s : Server)
    (a : Option Auth) (sender : GoString) (rcpts : List GoString) (msg : Bytes)
    (h : List Action) : Run :=
  (negotiate hook m s a h).andThen fun h =>
  (envelope s sender rcpts h).andThen fun h =>
  payload s msg h

/-- `SendMail` (mailyak.go, lines 123-180). The deferred `c.Close()` runs
after the result is computed and its own error is dropped.  The Go
parameters `from` and `to` are `sender` and `rcpts` here. -/
def MailYak.SendMail (m : MailYak) (hook : Option (TLSConfig → TLSConfig)) (s : Server)
    (addr : GoString) (a : Option Auth) (sender : GoString) (rcpts : List GoString)
    (msg : Bytes) : Run :=
  match validateLine sender with
  | some err => ([], some err)
  | none =>
    match validateRecipients rcpts with
    | some err => ([], some err)
    | none =>
      match s.reply [] (.dial addr) with
      | some err => ([.dial addr], some err)
      | none =>
        let r := session hook m s a sender rcpts msg [.dial addr]
        (r.1 ++ [.close], r.2)

/-- `Send` (mailyak.go, lines 60-73). -/
def MailYak.Send (m : MailYak) (hook : Option (TLSConfig → TLSConfig))
    (render : MailYak → Bytes) (s : Server) : Run :=
  match buildMime render m with
  | .error err => ([], some err)
  | .ok buf => m.SendMail hook s m.host m.auth m.fromAddr (m.toAddrs ++ m.bccAddrs) buf

/-- The verb `%v` of `fmt` on a `[]string`. -/
def fmtSlice (xs : List GoString) : GoString := "[" ++ " ".intercalate xs ++ "]"

/-- `String` (mailyak.go, lines 91-111). `q` is the verb `%q` of `fmt`. -/
def MailYak.String (m : MailYak) (q : GoString → GoString) : GoString :=
  let att : List GoString := m.attachments.map fun a => "\x7bfilename: " ++ a.filename ++ "\x7d"
  "&MailYak\x7bfrom: " ++ q m.fromAddr ++ ", fromName: " ++ q m.fromName ++
    ", html: " ++ toString m.html.len ++ " bytes, plain: " ++ toString m.plain.len ++
    " bytes, toAddrs: " ++ fmtSlice m.toAddrs ++ ", bccAddrs: " ++ fmtSlice m.bccAddrs ++
    ", subject: " ++ q m.subject ++ ", host: " ++ q m.host ++
    ", attachments (" ++ toString att.length ++ "): " ++ fmtSlice att ++
    ", auth set: " ++ toString m.auth.isSome ++ "\x7d"

/-- The recipients of the `Rcpt` calls of a history, in order. -/
def rcptsOf : List Action → List GoString
  | [] => []
  | .rcpt x :: t => x :: rcptsOf t
  | _ :: t => rcptsOf t

/-- A call of the envelope transaction: mail-from or a recipient. -/
def Action.isEnvelope : Action → Bool
  | .mail _ => true
  | .rcpt _ => true
  | _ => false

/-- A call of the payload phase or the termination. -/
def Action.isPayload : Action → Bool
  | .data => true
  | .write _ => true
  | .closeData => true
  | .quit => true
  | _ => false

/-- An attempt of the transport-security upgrade. -/
def Action.isStartTLS : Action → Bool
  | .startTLS _ => true
  | _ => false

/-- A server on which every call succeeds and that advertises `exts`. -/
def okServer (exts : Option (List GoString)) : Server :=
  { reply := fun _ _ => none, ext := fun _ => exts, serverName := fun _ => "mx.example.com" }

/-- A server that rejects the recipient `bad` and accepts everything else. -/
def rejecting (bad : GoString) : Server :=
  { reply := fun _ act => if act = .rcpt bad then some (.failure "550 rejected") else none
    ext := fun _ => none
    serverName := fun _ => "mx.example.com" }

/-- The run `r` continues the history `h` with calls that all satisfy `P`. -/
def Extends (P : Action → Prop) (h : List Action) (r : Run) : Prop :=
  ∃ t, r.1 = h ++ t ∧ ∀ act ∈ t, P act

/-- The calls a session can make: never `Dial` or `Close`, and `Rcpt` only
for a member of the recipient list. -/
def sessionCall (rcpts : List GoString) (act : Action) : Prop :=
  act ≠ .close ∧ (∀ addr, act ≠ .dial addr) ∧ ∀ x, act = .rcpt x → x ∈ rcpts

/-- The upgrade call prescribed after the history `h`: one `StartTLS` when
`STARTTLS` is advertised, none otherwise. -/
def tlsCalls (hook : Option (TLSConfig → TLSConfig)) (m : MailYak) (s : Server)
    (h : List Action) : List Action :=
  if Extension (s.ext h) "STARTTLS" = true then [.startTLS (tlsConfig hook m s h)] else []

/-- The authentication call prescribed after the history `h`: one `Auth` when
a credential is given and `AUTH` is advertised, none otherwise. -/
def authCalls (s : Server) (a : Option Auth) (h : List Action) : List Action :=
  match a with
  | some cred => if Extension (s.ext h) "AUTH" = true then [.auth cred] else []
  | none => []

/-- The calls prescribed up to the end of the data phase for a send in which
every step succeeds: connect, greet, optional upgrade, optional
authentication, mail-from, one `Rcpt` per recipient, data open, one write of
the message, data close. -/
def prescribed (hook : Option (TLSConfig → TLSConfig)) (m : MailYak) (s : Server)
    (addr : GoString) (a : Option Auth) (sender : GoString) (rcpts : List GoString)
    (msg : Bytes) : List Action :=
  let h1 := [Action.dial addr, Action.hello]
  let h2 := h1 ++ tlsCalls hook m s h1
  let h3 := h2 ++ authCalls s a h2
  h3 ++ [.mail sender] ++ rcpts.map .rcpt ++ [.data, .write msg, .closeData]

/-- A stand-in for the verb `%q` on texts of printable ASCII without quote
or backslash, which Go quotes by wrapping them in double quotes. -/
def plainQuote (x : GoString) : GoString := "\"" ++ x ++ "\""

/-- An email whose only address with a line break is a Cc address. -/
def ccInjected : MailYak :=
  { New "h:25" none false with
    fromAddr := "f@x"
    toAddrs := ["a@x"]
    ccAddrs := ["c@x\r\nRCPT TO:<evil@x>"] }

/-- A server that enforces the order of the protocol: mail-from needs the
greeting, a recipient needs mail-from, the data phase needs a recipient, a
write and the end of data need the data phase, and `AUTH` is advertised (and
accepted) only once the upgrade has been made. -/
def strictServer : Server :=
  { reply := fun h act =>
      match act with
      | .mail _ => if Action.hello ∈ h then none else some (.failure "503 greet first")
      | .rcpt _ => if h.any Action.isEnvelope then none else some (.failure "503 need MAIL")
      | .data => if rcptsOf h = [] then some (.failure "503 need RCPT") else none
      | .write _ => if Action.data ∈ h then none else some (.failure "503 need DATA")
      | .closeData => if Action.data ∈ h then none else some (.failure "503 need DATA")
      | .auth _ => if h.any Action.isStartTLS then none else some (.failure "530 need TLS")
      | _ => none
    ext := fun h => if h.any Action.isStartTLS then some ["AUTH"] else some ["STARTTLS"]
    serverName := fun _ => "mx.example.com" }

/-- Lines 137-178: the session up to the end of the data phase. -/
def beforeQuit (hook : Option (TLSConfig → TLSConfig)) (m : MailYak) (s : Server)
    (a : Option Auth) (sender : GoString) (rcpts : List GoString) (msg : Bytes)
    (h : List Action) : Run :=
  (call s h .hello).andThen fun h =>
  (startTLSStep hook m s h).andThen fun h =>
  (authStep s a h).andThen fun h =>
  (call s h (.mail sender)).andThen fun h =>
  (rcptLoop s rcpts h).andThen fun h =>
  (call s h .data).andThen fun h =>
  (call s h (.write msg)).andThen fun h =>
  call s h .closeData

/-- The run `r` makes the calls `calls` after the history `h` and stops at
the first one that fails: either all of them succeeded, or `r` ends with the
first failing call (followed by the printed error, for the upgrade) and
returns its error. -/
def StopsAtFirstError (s : Server) (h calls : List Action) (r : Run) : Prop :=
  r = (h ++ calls, none) ∨
    ∃ p act q e, calls = p ++ act :: q ∧ s.reply (h ++ p) act = some e ∧
      (r = (h ++ p ++ [act], some e) ∨ r = (h ++ p ++ [act, .println e], some e))

/-- Every call of `l` other than `Quit` and `Close` succeeds when the calls
are made in order after the history `h`. -/
def answeredOk (s : Server) (h : List Action) : List Action → Bool
  | [] => true
  | act :: rest =>
    (decide (act = .quit) || decide (act = .close) || (s.reply h act).isNone) &&
      answeredOk s (h ++ [act]) rest

/-! ## The line guard -/

lemma validateLine_of_crlf {line : GoString} (h : containsCRLF line) :
    validateLine line = some Error.HeaderInjection := by
  simp [validateLine, h]

lemma validateLine_of_clean {line : GoString} (h : ¬ containsCRLF line) :
    validateLine line = none := by
  simp [validateLine, h]

lemma validateRecipients_of_clean {rcpts : List GoString}
    (h : ∀ r ∈ rcpts, ¬ containsCRLF r) : validateRecipients rcpts = none := by
  induction rcpts with
  | nil => rfl
  | cons r rest ih =>
    have hr : ¬ containsCRLF r := h r (List.mem_cons_self _ _)
    have hrest : ∀ x ∈ rest, ¬ containsCRLF x := fun x hx => h x (List.mem_cons_of_mem _ hx)
    simp [validateRecipients, validateLine_of_clean hr, ih hrest]

lemma validateRecipients_of_crlf {rcpts : List GoString}
    (h : ∃ r ∈ rcpts, containsCRLF r) :
    validateRecipients rcpts = some Error.HeaderInjection := by
  induction rcpts with
  | nil => simp at h
  | cons r rest ih =>
    by_cases hr : containsCRLF r
    · simp [validateRecipients, validateLine_of_crlf hr]
    · have hrest : ∃ x ∈ rest, containsCRLF x := by
        obtain ⟨x, hx, hbad⟩ := h
        rcases List.mem_cons.1 hx with rfl | hx
        · exact absurd hbad hr
        · exact ⟨x, hx, hbad⟩
      simp [validateRecipients, validateLine_of_clean hr, ih hrest]

lemma SendMail_of_crlf (m : MailYak) (hook : Option (TLSConfig → TLSConfig)) (s : Server)
    (addr : GoString) (a : Option Auth) (sender : GoString) (rcpts : List GoString)
    (msg : Bytes) (hbad : containsCRLF sender ∨ ∃ r ∈ rcpts, containsCRLF r) :
    m.SendMail hook s addr a sender rcpts msg = ([], some Error.HeaderInjection) := by
  unfold MailYak.SendMail
  by_cases hs : containsCRLF sender
  · simp [validateLine_of_crlf hs]
  · have hr : ∃ r ∈ rcpts, containsCRLF r := hbad.resolve_left hs
    simp [validateLine_of_clean hs, validateRecipients_of_crlf hr]

lemma SendMail_of_clean (m : MailYak) (hook : Option (TLSConfig → TLSConfig)) (s : Server)
    (addr : GoString) (a : Option Auth) (sender : GoString) (rcpts : List GoString)
    (msg : Bytes) (hs : ¬ containsCRLF sender) (hr : ∀ r ∈ rcpts, ¬ containsCRLF r)
    (hd : s.reply [] (.dial addr) = none) :
    m.SendMail hook s addr a sender rcpts msg =
      ((session hook m s a sender rcpts msg [.dial addr]).1 ++ [.close],
        (session hook m s a sender rcpts msg [.dial addr]).2) := by
  unfold MailYak.SendMail
  simp [validateLine_of_clean hs, validateRecipients_of_clean hr, hd]

lemma SendMail_of_dial_error (m : MailYak) (hook : Option (TLSConfig → TLSConfig))
    (s : Server) (addr : GoString) (a : Option Auth) (sender : GoString)
    (rcpts : List GoString) (msg : Bytes) (hs : ¬ containsCRLF sender)
    (hr : ∀ r ∈ rcpts, ¬ containsCRLF r) (err : Error)
    (hd : s.reply [] (.dial addr) = some err) :
    m.SendMail hook s addr a sender rcpts msg = ([.dial addr], some err) := by
  unfold MailYak.SendMail
  simp [validateLine_of_clean hs, validateRecipients_of_clean hr, hd]

/-! ## Histories only grow, and each phase adds its own calls -/

lemma Extends.refl (P : Action → Prop) (h : List Action) (e : Option Error) :
    Extends P h (h, e) :=
  ⟨[], by simp, by simp⟩

lemma Extends.andThen {P : Action → Prop} {h : List Action} {r : Run}
    {k : List Action → Run} (hr : Extends P h r) (hk : ∀ h1, Extends P h1 (k h1)) :
    Extends P h (r.andThen k) := by
  unfold Run.andThen
  cases hres : r.2 with
  | some e => simpa using hr
  | none =>
    obtain ⟨t, ht, hP⟩ := hr
    obtain ⟨u, hu, hQ⟩ := hk r.1
    refine ⟨t ++ u, ?_, ?_⟩
    · rw [hu, ht, List.append_assoc]
    · intro act hact
      rcases List.mem_append.1 hact with h1 | h1
      · exact hP act h1
      · exact hQ act h1

lemma call_extends {P : Action → Prop} (s : Server) (h : List Action) {act : Action}
    (hP : P act) : Extends P h (call s h act) :=
  ⟨[act], rfl, by simpa using hP⟩

lemma startTLSStep_extends {P : Action → Prop} (hook : Option (TLSConfig → TLSConfig))
    (m : MailYak) (s : Server) (h : List Action) (hT : ∀ c, P (.startTLS c))
    (hL : ∀ e, P (.println e)) : Extends P h (startTLSStep hook m s h) := by
  unfold startTLSStep
  split
  · simp only []
    split
    · exact ⟨_, rfl, by simp [hT, hL]⟩
    · exact ⟨_, rfl, by simp [hT]⟩
  · exact Extends.refl P h none

lemma authStep_extends {P : Action → Prop} (s : Server) (a : Option Auth) (h : List Action)
    (hA : ∀ c, P (.auth c)) : Extends P h (authStep s a h) := by
  unfold authStep
  split
  · split
    · exact call_extends s h (hA _)
    · exact Extends.refl P h none
  · exact Extends.refl P h none

lemma rcptLoop_extends {P : Action → Prop} (s : Server) (rcpts : List GoString)
    (hR : ∀ x ∈ rcpts, P (.rcpt x)) (h : List Action) : Extends P h (rcptLoop s rcpts h) := by
  induction rcpts generalizing h with
  | nil => exact Extends.refl P h none
  | cons x rest ih =>
    have hx : P (.rcpt x) := hR x (List.mem_cons_self _ _)
    unfold rcptLoop
    split
    · exact ⟨[.rcpt x], rfl, by simpa using hx⟩
    · obtain ⟨t, ht, hP⟩ := ih (fun y hy => hR y (List.mem_cons_of_mem _ hy)) (h ++ [.rcpt x])
      refine ⟨.rcpt x :: t, by simp [ht], ?_⟩
      intro act hact
      rcases List.mem_cons.1 hact with rfl | h1
      · exact hx
      · exact hP act h1

lemma envelope_extends {P : Action → Prop} (s : Server) (sender : GoString)
    (rcpts : List GoString) (h : List Action) (hM : P (.mail sender))
    (hR : ∀ x ∈ rcpts, P (.rcpt x)) : Extends P h (envelope s sender rcpts h) :=
  (call_extends s h hM).andThen fun h1 => rcptLoop_extends s rcpts hR h1

lemma payload_extends {P : Action → Prop} (s : Server) (msg : Bytes) (h : List Action)
    (hP : ∀ act, act.isPayload = true → P act) : Extends P h (payload s msg h) :=
  (call_extends s h (hP .data rfl)).andThen fun h1 =>
  (call_extends s h1 (hP (.write msg) rfl)).andThen fun h2 =>
  (call_extends s h2 (hP .closeData rfl)).andThen fun h3 =>
  call_extends s h3 (hP .quit rfl)

lemma negotiate_extends {P : Action → Prop} (hook : Option (TLSConfig → TLSConfig))
    (m : MailYak) (s : Server) (a : Option Auth) (h : List Action) (hH : P .hello)
    (hT : ∀ c, P (.startTLS c)) (hL : ∀ e, P (.println e)) (hA : ∀ c, P (.auth c)) :
    Extends P h (negotiate hook m s a h) :=
  (call_extends s h hH).andThen fun h1 =>
  (startTLSStep_extends hook m s h1 hT hL).andThen fun h2 =>
  authStep_extends s a h2 hA

lemma session_extends (hook : Option (TLSConfig → TLSConfig)) (m : MailYak) (s : Server)
    (a : Option Auth) (sender : GoString) (rcpts : List GoString) (msg : Bytes)
    (h : List Action) :
    Extends (sessionCall rcpts) h (session hook m s a sender rcpts msg h) := by
  unfold session
  refine (negotiate_extends hook m s a h ?_ ?_ ?_ ?_).andThen fun h3 =>
    (envelope_extends s sender rcpts h3 ?_ ?_).andThen fun h4 =>
    payload_extends s msg h4 ?_
  · simp [sessionCall]
  · intro c; simp [sessionCall]
  · intro e; simp [sessionCall]
  · intro c; simp [sessionCall]
  · simp [sessionCall]
  · intro x hx; simpa [sessionCall] using hx
  · intro act hact
    cases act <;> simp [Action.isPayload] at hact <;> simp [sessionCall]

/-! ## Runs on which the steps succeed -/

lemma andThen_ok (h : List Action) (k : List Action → Run) :
    Run.andThen (h, none) k = k h := rfl

lemma andThen_error (h : List Action) (e : Error) (k : List Action → Run) :
    Run.andThen (h, some e) k = (h, some e) := rfl

lemma call_ok {s : Server} {h : List Action} {act : Action} (hok : s.reply h act = none) :
    call s h act = (h ++ [act], none) := by
  simp [call, hok]

lemma call_error {s : Server} {h : List Action} {act : Action} {e : Error}
    (herr : s.reply h act = some e) : call s h act = (h ++ [act], some e) := by
  simp [call, herr]

lemma rcptLoop_accepted (s : Server) (rcpts : List GoString) (h : List Action)
    (hok : ∀ p y q, rcpts = p ++ y :: q → s.reply (h ++ p.map .rcpt) (.rcpt y) = none) :
    rcptLoop s rcpts h = (h ++ rcpts.map .rcpt, none) := by
  induction rcpts generalizing h with
  | nil => simp [rcptLoop]
  | cons x rest ih =>
    have hx : s.reply h (.rcpt x) = none := by simpa using hok [] x rest rfl
    have hrest : ∀ p y q, rest = p ++ y :: q →
        s.reply ((h ++ [.rcpt x]) ++ p.map .rcpt) (.rcpt y) = none := by
      intro p y q hp
      have := hok (x :: p) y q (by simp [hp])
      simpa using this
    simp [rcptLoop, hx, ih (h ++ [.rcpt x]) hrest]

lemma rcptLoop_rejected (s : Server) (pre : List GoString) (x : GoString)
    (post : List GoString) (h : List Action) (e : Error)
    (hok : ∀ p y q, pre = p ++ y :: q → s.reply (h ++ p.map .rcpt) (.rcpt y) = none)
    (hx : s.reply (h ++ pre.map .rcpt) (.rcpt x) = some e) :
    rcptLoop s (pre ++ x :: post) h = (h ++ pre.map .rcpt ++ [.rcpt x], some e) := by
  induction pre generalizing h with
  | nil =>
    have hx0 : s.reply h (.rcpt x) = some e := by simpa using hx
    simp [rcptLoop, hx0]
  | cons y rest ih =>
    have hy : s.reply h (.rcpt y) = none := by simpa using hok [] y rest rfl
    have hrest : ∀ p z q, rest = p ++ z :: q →
        s.reply ((h ++ [.rcpt y]) ++ p.map .rcpt) (.rcpt z) = none := by
      intro p z q hp
      have := hok (y :: p) z q (by simp [hp])
      simpa using this
    have hx1 : s.reply ((h ++ [.rcpt y]) ++ rest.map .rcpt) (.rcpt x) = some e := by
      simpa using hx
    simp [rcptLoop, hy, ih (h ++ [.rcpt y]) hrest hx1]

lemma authStep_eq (s : Server) (a : Option Auth) (h : List Action) :
    authStep s a h =
      match a with
      | some cred => if Extension (s.ext h) "AUTH" = true then call s h (.auth cred) else (h, none)
      | none => (h, none) := by
  unfold authStep Extension
  cases a with
  | none => rfl
  | some cred =>
    cases hext : s.ext h with
    | none => simp
    | some ext => simp

lemma authStep_ok (s : Server) (a : Option Auth) (h : List Action)
    (hok : ∀ cred, a = some cred → Extension (s.ext h) "AUTH" = true →
      s.reply h (.auth cred) = none) :
    authStep s a h = (h ++ authCalls s a h, none) := by
  rw [authStep_eq]
  unfold authCalls
  cases a with
  | none => simp
  | some cred =>
    by_cases hx : Extension (s.ext h) "AUTH" = true
    · simp [hx, call, hok cred rfl hx]
    · simp [hx]

lemma authStep_skipped (s : Server) (a : Option Auth) (h : List Action)
    (hskip : ¬ (a ≠ none ∧ Extension (s.ext h) "AUTH" = true)) :
    authStep s a h = (h, none) := by
  rw [authStep_eq]
  cases a with
  | none => rfl
  | some cred =>
    have hx : ¬ Extension (s.ext h) "AUTH" = true := fun hx => hskip ⟨by simp, hx⟩
    simp [hx]

lemma authStep_attempted (s : Server) (cred : Auth) (h : List Action)
    (hx : Extension (s.ext h) "AUTH" = true) :
    authStep s (some cred) h = call s h (.auth cred) := by
  rw [authStep_eq]
  simp [hx]

lemma startTLSStep_skipped (hook : Option (TLSConfig → TLSConfig)) (m : MailYak)
    (s : Server) (h : List Action) (hx : Extension (s.ext h) "STARTTLS" = false) :
    startTLSStep hook m s h = (h, none) := by
  simp [startTLSStep, hx]

lemma startTLSStep_upgraded (hook : Option (TLSConfig → TLSConfig)) (m : MailYak)
    (s : Server) (h : List Action) (hx : Extension (s.ext h) "STARTTLS" = true)
    (hok : s.reply h (.startTLS (tlsConfig hook m s h)) = none) :
    startTLSStep hook m s h = (h ++ [.startTLS (tlsConfig hook m s h)], none) := by
  simp [startTLSStep, hx, hok]

lemma startTLSStep_failed (hook : Option (TLSConfig → TLSConfig)) (m : MailYak)
    (s : Server) (h : List Action) (hx : Extension (s.ext h) "STARTTLS" = true) (e : Error)
    (herr : s.reply h (.startTLS (tlsConfig hook m s h)) = some e) :
    startTLSStep hook m s h =
      (h ++ [.startTLS (tlsConfig hook m s h), .println e], some e) := by
  simp [startTLSStep, hx, herr]

lemma startTLSStep_history (hook : Option (TLSConfig → TLSConfig)) (m : MailYak)
    (s : Server) (h h2 : List Action) (ht : startTLSStep hook m s h = (h2, none)) :
    h2 = h ++ tlsCalls hook m s h := by
  unfold tlsCalls
  by_cases hx : Extension (s.ext h) "STARTTLS" = true
  · cases hrep : s.reply h (.startTLS (tlsConfig hook m s h)) with
    | some e =>
      rw [startTLSStep_failed hook m s h hx e hrep] at ht
      simp at ht
    | none =>
      rw [startTLSStep_upgraded hook m s h hx hrep] at ht
      simp [hx, ← (Prod.mk.inj ht).1]
  · rw [startTLSStep_skipped hook m s h (by simpa using hx)] at ht
    simp [hx, ← (Prod.mk.inj ht).1]

lemma negotiate_of_hello (hook : Option (TLSConfig → TLSConfig)) (m : MailYak) (s : Server)
    (a : Option Auth) (h : List Action) (hh : s.reply h .hello = none) :
    negotiate hook m s a h =
      (startTLSStep hook m s (h ++ [.hello])).andThen fun h1 => authStep s a h1 := by
  unfold negotiate
  rw [call_ok hh, andThen_ok]

lemma session_of_negotiate (hook : Option (TLSConfig → TLSConfig)) (m : MailYak)
    (s : Server) (a : Option Auth) (sender : GoString) (rcpts : List GoString) (msg : Bytes)
    (h h0 : List Action) (hn : negotiate hook m s a h = (h0, none)) :
    session hook m s a sender rcpts msg h =
      (envelope s sender rcpts h0).andThen fun h1 => payload s msg h1 := by
  unfold session
  rw [hn, andThen_ok]

lemma session_of_negotiate_error (hook : Option (TLSConfig → TLSConfig)) (m : MailYak)
    (s : Server) (a : Option Auth) (sender : GoString) (rcpts : List GoString) (msg : Bytes)
    (h h0 : List Action) (e : Error) (hn : negotiate hook m s a h = (h0, some e)) :
    session hook m s a sender rcpts msg h = (h0, some e) := by
  unfold session
  rw [hn, andThen_error]

lemma Extends.isPrefix {P : Action → Prop} {h : List Action} {r : Run}
    (hr : Extends P h r) : h <+: r.1 := by
  obtain ⟨t, ht, _⟩ := hr
  exact ⟨t, ht.symm⟩

lemma prefix_andThen {p : List Action} {r : Run} {k : List Action → Run}
    (hp : p <+: r.1) (hk : ∀ h1, h1 <+: (k h1).1) : p <+: (r.andThen k).1 := by
  unfold Run.andThen
  split
  · exact hp
  · exact hp.trans (hk _)

lemma transaction_extends {P : Action → Prop} (s : Server) (sender : GoString)
    (rcpts : List GoString) (msg : Bytes) (h : List Action) (hM : P (.mail sender))
    (hR : ∀ x ∈ rcpts, P (.rcpt x)) (hP : ∀ act, act.isPayload = true → P act) :
    Extends P h ((envelope s sender rcpts h).andThen fun h1 => payload s msg h1) :=
  (envelope_extends s sender rcpts h hM hR).andThen fun h1 => payload_extends s msg h1 hP

lemma transaction_starts_with_mail (s : Server) (sender : GoString) (rcpts : List GoString)
    (msg : Bytes) (h : List Action) :
    (h ++ [.mail sender]) <+:
      ((envelope s sender rcpts h).andThen fun h1 => payload s msg h1).1 := by
  refine prefix_andThen ?_ fun h1 =>
    (payload_extends (P := fun _ => True) s msg h1 (fun _ _ => trivial)).isPrefix
  unfold envelope
  refine prefix_andThen (List.prefix_refl _) fun h1 => ?_
  exact (rcptLoop_extends (P := fun _ => True) s rcpts (fun _ _ => trivial) h1).isPrefix

/-! ## The shape of every run -/

lemma SendMail_shape (m : MailYak) (hook : Option (TLSConfig → TLSConfig)) (s : Server)
    (addr : GoString) (a : Option Auth) (sender : GoString) (rcpts : List GoString)
    (msg : Bytes) :
    ((containsCRLF sender ∨ ∃ r ∈ rcpts, containsCRLF r) ∧
        m.SendMail hook s addr a sender rcpts msg = ([], some Error.HeaderInjection)) ∨
      (∃ e, s.reply [] (.dial addr) = some e ∧
        m.SendMail hook s addr a sender rcpts msg = ([.dial addr], some e)) ∨
      (¬ containsCRLF sender ∧ (∀ r ∈ rcpts, ¬ containsCRLF r) ∧
        s.reply [] (.dial addr) = none ∧
        ∃ t, (m.SendMail hook s addr a sender rcpts msg).1 = .dial addr :: t ++ [.close] ∧
          ∀ act ∈ t, sessionCall rcpts act) := by
  by_cases hbad : containsCRLF sender ∨ ∃ r ∈ rcpts, containsCRLF r
  · exact Or.inl ⟨hbad, SendMail_of_crlf m hook s addr a sender rcpts msg hbad⟩
  · have hs : ¬ containsCRLF sender := fun h => hbad (Or.inl h)
    have hr : ∀ r ∈ rcpts, ¬ containsCRLF r := fun r hr h => hbad (Or.inr ⟨r, hr, h⟩)
    cases hd : s.reply [] (.dial addr) with
    | some e =>
      exact Or.inr (Or.inl ⟨e, rfl,
        SendMail_of_dial_error m hook s addr a sender rcpts msg hs hr e hd⟩)
    | none =>
      obtain ⟨t, ht, hP⟩ := session_extends hook m s a sender rcpts msg [.dial addr]
      refine Or.inr (Or.inr ⟨hs, hr, rfl, t, ?_, hP⟩)
      rw [SendMail_of_clean m hook s addr a sender rcpts msg hs hr hd]
      simp [ht]

lemma rcptsOf_append (l1 l2 : List Action) : rcptsOf (l1 ++ l2) = rcptsOf l1 ++ rcptsOf l2 := by
  induction l1 with
  | nil => rfl
  | cons act t ih => cases act <;> simp [rcptsOf, ih]

lemma rcptsOf_map_rcpt (l : List GoString) : rcptsOf (l.map .rcpt) = l := by
  induction l with
  | nil => rfl
  | cons x t ih => simp [rcptsOf, ih]

lemma rcptsOf_eq_nil {l : List Action} (h : ∀ act ∈ l, ∀ x, act ≠ .rcpt x) :
    rcptsOf l = [] := by
  induction l with
  | nil => rfl
  | cons act t ih =>
    have ht : ∀ b ∈ t, ∀ x, b ≠ .rcpt x := fun b hb => h b (List.mem_cons_of_mem _ hb)
    have hact : ∀ x, act ≠ .rcpt x := h act (List.mem_cons_self _ _)
    cases act <;> simp [rcptsOf, ih ht]
    exact hact _ rfl

lemma rcptsOf_tlsCalls (hook : Option (TLSConfig → TLSConfig)) (m : MailYak) (s : Server)
    (h : List Action) : rcptsOf (tlsCalls hook m s h) = [] := by
  unfold tlsCalls
  split <;> rfl

lemma rcptsOf_authCalls (s : Server) (a : Option Auth) (h : List Action) :
    rcptsOf (authCalls s a h) = [] := by
  unfold authCalls
  cases a with
  | none => rfl
  | some cred => simp only []; split <;> rfl

lemma rcptsOf_prescribed (hook : Option (TLSConfig → TLSConfig)) (m : MailYak) (s : Server)
    (addr : GoString) (a : Option Auth) (sender : GoString) (rcpts : List GoString)
    (msg : Bytes) : rcptsOf (prescribed hook m s addr a sender rcpts msg) = rcpts := by
  simp [prescribed, rcptsOf_append, rcptsOf_tlsCalls, rcptsOf_authCalls, rcptsOf_map_rcpt,
    rcptsOf]

lemma session_extends_from {P : Action → Prop} (hook : Option (TLSConfig → TLSConfig))
    (m : MailYak) (s : Server) (a : Option Auth) (sender : GoString) (rcpts : List GoString)
    (msg : Bytes) (h h2 : List Action) (hneg : negotiate hook m s a h = authStep s a h2)
    (hA : ∀ c, P (.auth c)) (hM : P (.mail sender)) (hR : ∀ x ∈ rcpts, P (.rcpt x))
    (hP : ∀ act, act.isPayload = true → P act) :
    Extends P h2 (session hook m s a sender rcpts msg h) := by
  unfold session
  rw [hneg]
  exact (authStep_extends s a h2 hA).andThen fun h1 =>
    transaction_extends s sender rcpts msg h1 hM hR hP

lemma isStartTLS_of_isPayload (act : Action) (h : act.isPayload = true) :
    act.isStartTLS = false := by
  cases act <;> simp [Action.isPayload] at h <;> rfl

lemma mem_tlsCalls {hook : Option (TLSConfig → TLSConfig)} {m : MailYak} {s : Server}
    {h : List Action} {act : Action} (hact : act ∈ tlsCalls hook m s h) :
    act = .startTLS (tlsConfig hook m s h) := by
  unfold tlsCalls at hact
  split at hact
  · simpa using hact
  · simp at hact

lemma SendMail_rcpt_rejected (m : MailYak) (hook : Option (TLSConfig → TLSConfig))
    (s : Server) (addr : GoString) (a : Option Auth) (sender : GoString)
    (pre : List GoString) (x : GoString) (post : List GoString) (msg : Bytes)
    (h0 : List Action) (e : Error)
    (hs : ¬ containsCRLF sender) (hr : ∀ r ∈ pre ++ x :: post, ¬ containsCRLF r)
    (hd : s.reply [] (.dial addr) = none)
    (hn : negotiate hook m s a [.dial addr] = (h0, none))
    (hm : s.reply h0 (.mail sender) = none)
    (hpre : ∀ p y q, pre = p ++ y :: q →
      s.reply (h0 ++ [.mail sender] ++ p.map .rcpt) (.rcpt y) = none)
    (hx : s.reply (h0 ++ [.mail sender] ++ pre.map .rcpt) (.rcpt x) = some e) :
    m.SendMail hook s addr a sender (pre ++ x :: post) msg =
      (h0 ++ [.mail sender] ++ pre.map .rcpt ++ [.rcpt x, .close], some e) := by
  rw [SendMail_of_clean m hook s addr a sender _ msg hs hr hd,
    session_of_negotiate hook m s a sender _ msg _ _ hn]
  unfold envelope
  rw [call_ok hm, andThen_ok, rcptLoop_rejected s pre x post _ e hpre hx, andThen_error]
  simp

lemma negotiate_history (hook : Option (TLSConfig → TLSConfig)) (m : MailYak) (s : Server)
    (a : Option Auth) (addr : GoString) (h0 : List Action) (e : Option Error)
    (hn : negotiate hook m s a [.dial addr] = (h0, e)) :
    ∃ t, h0 = .dial addr :: t ∧
      ∀ act ∈ t, act.isPayload = false ∧ act.isEnvelope = false := by
  obtain ⟨t, ht, hP⟩ := negotiate_extends
    (P := fun act => act.isPayload = false ∧ act.isEnvelope = false)
    hook m s a [.dial addr] ⟨rfl, rfl⟩ (fun _ => ⟨rfl, rfl⟩) (fun _ => ⟨rfl, rfl⟩)
    (fun _ => ⟨rfl, rfl⟩)
  rw [hn] at ht
  exact ⟨t, by simpa using ht, hP⟩

lemma rcptsOf_of_not_envelope {l : List Action} (h : ∀ act ∈ l, act.isEnvelope = false) :
    rcptsOf l = [] :=
  rcptsOf_eq_nil fun act hact x hx => by
    have := h act hact
    rw [hx] at this
    simp [Action.isEnvelope] at this

/-! ## Every run stops at the first failing call -/

lemma andThen_assoc (r : Run) (f g : List Action → Run) :
    (r.andThen f).andThen g = r.andThen fun h => (f h).andThen g := by
  obtain ⟨h, e⟩ := r
  cases e <;> rfl

lemma session_eq_beforeQuit (hook : Option (TLSConfig → TLSConfig)) (m : MailYak)
    (s : Server) (a : Option Auth) (sender : GoString) (rcpts : List GoString) (msg : Bytes)
    (h : List Action) :
    session hook m s a sender rcpts msg h =
      (beforeQuit hook m s a sender rcpts msg h).andThen fun h1 => call s h1 .quit := by
  simp only [session, negotiate, envelope, payload, beforeQuit, andThen_assoc]

lemma stops_andThen {s : Server} {h c1 c2 : List Action} {r : Run}
    {k : List Action → Run} (h1 : StopsAtFirstError s h c1 r)
    (h2 : StopsAtFirstError s (h ++ c1) c2 (k (h ++ c1))) :
    StopsAtFirstError s h (c1 ++ c2) (r.andThen k) := by
  rcases h1 with rfl | ⟨p, act, q, e, hc, hrep, hrun⟩
  · rw [andThen_ok]
    rcases h2 with h2 | ⟨p, act, q, e, hc, hrep, hrun⟩
    · left
      rw [h2, List.append_assoc]
    · right
      refine ⟨c1 ++ p, act, q, e, by rw [hc, List.append_assoc], ?_, ?_⟩
      · rw [← List.append_assoc]
        exact hrep
      · rcases hrun with hrun | hrun
        · left
          rw [hrun]
          simp
        · right
          rw [hrun]
          simp
  · right
    refine ⟨p, act, q ++ c2, e, by rw [hc]; simp, hrep, ?_⟩
    rcases hrun with rfl | rfl
    · exact Or.inl rfl
    · exact Or.inr rfl

lemma call_stops (s : Server) (h : List Action) (act : Action) :
    StopsAtFirstError s h [act] (call s h act) := by
  cases hrep : s.reply h act with
  | none => exact Or.inl (call_ok hrep)
  | some e =>
    refine Or.inr ⟨[], act, [], e, rfl, by simpa using hrep, Or.inl ?_⟩
    rw [call_error hrep]
    simp

lemma startTLSStep_stops (hook : Option (TLSConfig → TLSConfig)) (m : MailYak) (s : Server)
    (h : List Action) :
    StopsAtFirstError s h (tlsCalls hook m s h) (startTLSStep hook m s h) := by
  by_cases hx : Extension (s.ext h) "STARTTLS" = true
  · have hcalls : tlsCalls hook m s h = [.startTLS (tlsConfig hook m s h)] := by
      simp [tlsCalls, hx]
    rw [hcalls]
    cases hrep : s.reply h (.startTLS (tlsConfig hook m s h)) with
    | none => exact Or.inl (startTLSStep_upgraded hook m s h hx hrep)
    | some e =>
      refine Or.inr ⟨[], _, [], e, rfl, by simpa using hrep, Or.inr ?_⟩
      rw [startTLSStep_failed hook m s h hx e hrep]
      simp
  · have hcalls : tlsCalls hook m s h = [] := by simp [tlsCalls, hx]
    rw [hcalls, startTLSStep_skipped hook m s h (by simpa using hx)]
    exact Or.inl (by simp)

lemma authStep_stops (s : Server) (a : Option Auth) (h : List Action) :
    StopsAtFirstError s h (authCalls s a h) (authStep s a h) := by
  by_cases hatt : a ≠ none ∧ Extension (s.ext h) "AUTH" = true
  · obtain ⟨hne, hx⟩ := hatt
    obtain ⟨cred, rfl⟩ := Option.ne_none_iff_exists'.1 hne
    have hcalls : authCalls s (some cred) h = [.auth cred] := by simp [authCalls, hx]
    rw [hcalls, authStep_attempted s cred h hx]
    exact call_stops s h _
  · have hcalls : authCalls s a h = [] := by
      cases a with
      | none => rfl
      | some cred =>
        have hx : ¬ Extension (s.ext h) "AUTH" = true := fun hx => hatt ⟨by simp, hx⟩
        simp [authCalls, hx]
    rw [hcalls, authStep_skipped s a h hatt]
    exact Or.inl (by simp)

lemma rcptLoop_cons (s : Server) (x : GoString) (rest : List GoString) (h : List Action) :
    rcptLoop s (x :: rest) h = (call s h (.rcpt x)).andThen fun h1 => rcptLoop s rest h1 := by
  cases hrep : s.reply h (.rcpt x) <;> simp [rcptLoop, call, Run.andThen, hrep]

lemma rcptLoop_stops (s : Server) (rcpts : List GoString) (h : List Action) :
    StopsAtFirstError s h (rcpts.map .rcpt) (rcptLoop s rcpts h) := by
  induction rcpts generalizing h with
  | nil => exact Or.inl (by simp [rcptLoop])
  | cons x rest ih =>
    rw [rcptLoop_cons]
    exact stops_andThen (call_stops s h (.rcpt x)) (ih _)

lemma beforeQuit_stops (hook : Option (TLSConfig → TLSConfig)) (m : MailYak) (s : Server)
    (addr : GoString) (a : Option Auth) (sender : GoString) (rcpts : List GoString)
    (msg : Bytes) :
    ∃ c, prescribed hook m s addr a sender rcpts msg = .dial addr :: c ∧
      StopsAtFirstError s [.dial addr] c
        (beforeQuit hook m s a sender rcpts msg [.dial addr]) := by
  refine ⟨[.hello] ++ (tlsCalls hook m s ([.dial addr] ++ [.hello]) ++
    (authCalls s a ([.dial addr] ++ [.hello] ++ tlsCalls hook m s ([.dial addr] ++ [.hello])) ++
    ([.mail sender] ++ (rcpts.map .rcpt ++ ([.data] ++ ([.write msg] ++ [.closeData])))))),
    by simp [prescribed], ?_⟩
  unfold beforeQuit
  exact stops_andThen (call_stops s _ .hello) <|
    stops_andThen (startTLSStep_stops hook m s _) <|
    stops_andThen (authStep_stops s a _) <|
    stops_andThen (call_stops s _ (.mail sender)) <|
    stops_andThen (rcptLoop_stops s rcpts _) <|
    stops_andThen (call_stops s _ .data) <|
    stops_andThen (call_stops s _ (.write msg)) (call_stops s _ .closeData)

/-- With clean addresses, every run of `SendMail` follows the prescribed
calls and stops at the first one that fails; when none fails it ends with
`Quit` and `Close` and returns the reply of `Quit`. -/
lemma SendMail_fail_stop (m : MailYak) (hook : Option (TLSConfig → TLSConfig)) (s : Server)
    (addr : GoString) (a : Option Auth) (sender : GoString) (rcpts : List GoString)
    (msg : Bytes) (hs : ¬ containsCRLF sender) (hr : ∀ r ∈ rcpts, ¬ containsCRLF r) :
    m.SendMail hook s addr a sender rcpts msg =
        (prescribed hook m s addr a sender rcpts msg ++ [.quit, .close],
          s.reply (prescribed hook m s addr a sender rcpts msg) .quit) ∨
      ∃ p act q e tail, prescribed hook m s addr a sender rcpts msg = p ++ act :: q ∧
        s.reply p act = some e ∧
        m.SendMail hook s addr a sender rcpts msg = (p ++ act :: tail, some e) ∧
        ∀ b ∈ tail, b = .close ∨ b = .println e := by
  obtain ⟨c, hpres, hsteps⟩ := beforeQuit_stops hook m s addr a sender rcpts msg
  cases hd : s.reply [] (.dial addr) with
  | some e =>
    refine Or.inr ⟨[], .dial addr, c, e, [], by simpa using hpres, hd, ?_, by simp⟩
    simpa using SendMail_of_dial_error m hook s addr a sender rcpts msg hs hr e hd
  | none =>
    rw [SendMail_of_clean m hook s addr a sender rcpts msg hs hr hd, session_eq_beforeQuit]
    rcases hsteps with hrun | ⟨p, act, q, e, hc, hrep, hrun | hrun⟩
    · left
      rw [hrun, andThen_ok, hpres]
      simp [call]
    · right
      refine ⟨.dial addr :: p, act, q, e, [.close], by rw [hpres, hc]; simp,
        by simpa using hrep, ?_, by simp⟩
      rw [hrun, andThen_error]
      simp
    · right
      refine ⟨.dial addr :: p, act, q, e, [.println e, .close], by rw [hpres, hc]; simp,
        by simpa using hrep, ?_, by simp⟩
      rw [hrun, andThen_error]
      simp

lemma mem_authCalls {s : Server} {a : Option Auth} {h : List Action} {act : Action}
    (hact : act ∈ authCalls s a h) : ∃ c, act = .auth c := by
  unfold authCalls at hact
  cases a with
  | none => simp at hact
  | some cred =>
    simp only [] at hact
    split at hact
    · exact ⟨cred, by simpa using hact⟩
    · simp at hact

lemma prescribed_ne_quit_close (hook : Option (TLSConfig → TLSConfig)) (m : MailYak)
    (s : Server) (addr : GoString) (a : Option Auth) (sender : GoString)
    (rcpts : List GoString) (msg : Bytes) (act : Action)
    (hact : act ∈ prescribed hook m s addr a sender rcpts msg) :
    act ≠ .quit ∧ act ≠ .close := by
  simp only [prescribed, List.mem_append, List.mem_cons, List.mem_singleton, List.mem_map,
    List.not_mem_nil, or_false] at hact
  rcases hact with (((((rfl | rfl) | hmem) | hmem) | rfl) | ⟨x, _, rfl⟩) | rfl | rfl | rfl
  · simp
  · simp
  · rw [mem_tlsCalls hmem]; simp
  · obtain ⟨c, rfl⟩ := mem_authCalls hmem; simp
  · simp
  · simp
  · simp
  · simp
  · simp

/-- With clean addresses, when every call the run makes before `Quit`
succeeds, or when every prescribed call succeeds in its turn, the run is the
prescribed calls followed by `Quit` and `Close`, with the reply of `Quit`. -/
lemma SendMail_of_steps_ok (m : MailYak) (hook : Option (TLSConfig → TLSConfig))
    (s : Server) (addr : GoString) (a : Option Auth) (sender : GoString)
    (rcpts : List GoString) (msg : Bytes) (hs : ¬ containsCRLF sender)
    (hr : ∀ r ∈ rcpts, ¬ containsCRLF r)
    (hok : (∀ p act q, (m.SendMail hook s addr a sender rcpts msg).1 = p ++ act :: q →
          act ≠ .quit → act ≠ .close → s.reply p act = none) ∨
        (∀ p act q, prescribed hook m s addr a sender rcpts msg = p ++ act :: q →
          s.reply p act = none)) :
    m.SendMail hook s addr a sender rcpts msg =
      (prescribed hook m s addr a sender rcpts msg ++ [.quit, .close],
        s.reply (prescribed hook m s addr a sender rcpts msg) .quit) := by
  rcases SendMail_fail_stop m hook s addr a sender rcpts msg hs hr
    with h | ⟨p, act, q, e, tail, hp, hrep, hrun, _⟩
  · exact h
  · exfalso
    have hmem : act ∈ prescribed hook m s addr a sender rcpts msg := by
      rw [hp]; simp
    obtain ⟨hq, hc⟩ := prescribed_ne_quit_close hook m s addr a sender rcpts msg act hmem
    rcases hok with h1 | h2
    · have := h1 p act tail (by rw [hrun]) hq hc
      rw [hrep] at this
      cases this
    · have := h2 p act q hp
      rw [hrep] at this
      cases this

lemma calls_succeed_from (s : Server) (l h : List Action) (hc : answeredOk s h l = true) :
    ∀ p act q, l = p ++ act :: q → act ≠ .quit → act ≠ .close →
      s.reply (h ++ p) act = none := by
  induction l generalizing h with
  | nil => intro p act q hp; simp at hp
  | cons b rest ih =>
    intro p act q hp hq hcl
    simp only [answeredOk, Bool.and_eq_true, Bool.or_eq_true, decide_eq_true_eq,
      Option.isNone_iff_eq_none] at hc
    cases p with
    | nil =>
      obtain ⟨rfl, _⟩ := List.cons.inj hp
      rcases hc.1 with (h1 | h1) | h1
      · exact absurd h1 hq
      · exact absurd h1 hcl
      · simpa using h1
    | cons c p1 =>
      obtain ⟨rfl, hrest⟩ := List.cons.inj hp
      have := ih (h ++ [b]) hc.2 p1 act q hrest hq hcl
      simpa using this

lemma calls_succeed_of_answeredOk (s : Server) (l : List Action)
    (hc : answeredOk s [] l = true) :
    ∀ p act q, l = p ++ act :: q → act ≠ .quit → act ≠ .close → s.reply p act = none := by
  intro p act q hp hq hcl
  simpa using calls_succeed_from s l [] hc p act q hp hq hcl

/-- In every run with clean addresses the recipients of the `Rcpt` calls are
an initial part of the recipient list. -/
lemma rcptsOf_SendMail_prefix (m : MailYak) (hook : Option (TLSConfig → TLSConfig))
    (s : Server) (addr : GoString) (a : Option Auth) (sender : GoString)
    (rcpts : List GoString) (msg : Bytes) :
    rcptsOf (m.SendMail hook s addr a sender rcpts msg).1 <+: rcpts := by
  by_cases hbad : containsCRLF sender ∨ ∃ r ∈ rcpts, containsCRLF r
  · rw [SendMail_of_crlf m hook s addr a sender rcpts msg hbad]
    exact List.nil_prefix
  · have hs : ¬ containsCRLF sender := fun h => hbad (Or.inl h)
    have hr : ∀ r ∈ rcpts, ¬ containsCRLF r := fun r hr h => hbad (Or.inr ⟨r, hr, h⟩)
    rcases SendMail_fail_stop m hook s addr a sender rcpts msg hs hr
      with h | ⟨p, act, q, e, tail, hp, _, hrun, htail⟩
    · rw [h]
      show rcptsOf (_ ++ [Action.quit, Action.close]) <+: rcpts
      rw [rcptsOf_append, rcptsOf_prescribed]
      simp [rcptsOf]
    · have htl : rcptsOf tail = [] := rcptsOf_eq_nil fun b hb x hx => by
        rcases htail b hb with h1 | h1 <;> rw [h1] at hx <;> cases hx
      have hall := rcptsOf_prescribed hook m s addr a sender rcpts msg
      rw [hp, rcptsOf_append, show act :: q = [act] ++ q from rfl, rcptsOf_append] at hall
      rw [hrun]
      show rcptsOf (p ++ act :: tail) <+: rcpts
      rw [rcptsOf_append, show act :: tail = [act] ++ tail from rfl, rcptsOf_append, htl,
        List.append_nil, ← hall, ← List.append_assoc]
      exact List.prefix_append _ _

/-! ## The claims -/

/-- C1: when the sender or some envelope recipient contains a carriage-return
or a line-feed, `SendMail` returns the validation error of the first
offending value (the sender first, then the recipients in order) and makes no
call at all: no `Dial`, no SMTP command. The same holds for `Send` once the
message is built, its recipients being the To then the Bcc addresses. -/
theorem SendMail_crlf_rejected_before_dial (m : MailYak)
    (hook : Option (TLSConfig → TLSConfig)) (s : Server) (addr : GoString)
    (a : Option Auth) (sender : GoString) (rcpts : List GoString) (msg : Bytes)
    (hbad : containsCRLF sender ∨ ∃ r ∈ rcpts, containsCRLF r) :
    ∃ v, (sender :: rcpts).find? (fun x => decide (containsCRLF x)) = some v ∧
      validateLine v = some Error.HeaderInjection ∧
      m.SendMail hook s addr a sender rcpts msg = ([], validateLine v) ∧
      ∀ render buf, buildMime render m = .ok buf → sender = m.fromAddr →
        rcpts = m.toAddrs ++ m.bccAddrs → m.Send hook render s = ([], validateLine v) := by
  cases hfind : (sender :: rcpts).find? (fun x => decide (containsCRLF x)) with
  | none =>
    exfalso
    have hnone := List.find?_eq_none.1 hfind
    rcases hbad with h | ⟨r, hr, h⟩
    · exact absurd h (by simpa using hnone sender (List.mem_cons_self _ _))
    · exact absurd h (by simpa using hnone r (List.mem_cons_of_mem _ hr))
  | some v =>
    have hv : containsCRLF v := by simpa using List.find?_some hfind
    refine ⟨v, rfl, validateLine_of_crlf hv, ?_, ?_⟩
    · rw [validateLine_of_crlf hv]
      exact SendMail_of_crlf m hook s addr a sender rcpts msg hbad
    · intro render buf hb h1 h2
      subst h1 h2
      unfold MailYak.Send
      rw [hb, validateLine_of_crlf hv]
      exact SendMail_of_crlf m hook s m.host m.auth _ _ buf hbad

/-- Witness of C1: the second recipient carries a line-feed. -/
theorem SendMail_crlf_rejected_before_dial_witness :
    (containsCRLF "f@x" ∨ ∃ r ∈ ["a@x", "b\n@x"], containsCRLF r) ∧
      (New "h:25" none false).SendMail none (okServer none) "h:25" none "f@x"
        ["a@x", "b\n@x"] [1] = ([], some Error.HeaderInjection) := by
  have hbad : containsCRLF "f@x" ∨ ∃ r ∈ ["a@x", "b\n@x"], containsCRLF r := by decide
  refine ⟨hbad, ?_⟩
  obtain ⟨v, _, hval, hrun, _⟩ := SendMail_crlf_rejected_before_dial
    (New "h:25" none false) none (okServer none) "h:25" none "f@x" ["a@x", "b\n@x"] [1] hbad
  rw [hrun, hval]

/-- C2: when the message builds, `Send` is `SendMail` on the To addresses
followed by the Bcc addresses. Whatever the server answers, a `Rcpt` is only
issued for an address of the To or Bcc list (so none for a Cc address that is
in neither), and the recipients of the `Rcpt` calls are an initial part of
the To addresses followed by the Bcc addresses. With clean addresses, when
every call this run makes before `Quit` succeeds (or, alternatively, when
every prescribed call succeeds in its turn), the `Rcpt` calls are exactly the
To then the Bcc addresses, one each, in order. -/
theorem Send_envelope_is_to_then_bcc (m : MailYak) (hook : Option (TLSConfig → TLSConfig))
    (render : MailYak → Bytes) (s : Server) (buf : Bytes)
    (hb : buildMime render m = .ok buf) :
    m.Send hook render s =
        m.SendMail hook s m.host m.auth m.fromAddr (m.toAddrs ++ m.bccAddrs) buf ∧
      (∀ x, Action.rcpt x ∈ (m.Send hook render s).1 → x ∈ m.toAddrs ∨ x ∈ m.bccAddrs) ∧
      rcptsOf (m.Send hook render s).1 <+: m.toAddrs ++ m.bccAddrs ∧
      (¬ containsCRLF m.fromAddr → (∀ r ∈ m.toAddrs ++ m.bccAddrs, ¬ containsCRLF r) →
        ((∀ p act q, (m.Send hook render s).1 = p ++ act :: q →
            act ≠ .quit → act ≠ .close → s.reply p act = none) ∨
          (∀ p act q,
            prescribed hook m s m.host m.auth m.fromAddr (m.toAddrs ++ m.bccAddrs) buf =
              p ++ act :: q → s.reply p act = none)) →
        rcptsOf (m.Send hook render s).1 = m.toAddrs ++ m.bccAddrs) := by
  have hsend : m.Send hook render s =
      m.SendMail hook s m.host m.auth m.fromAddr (m.toAddrs ++ m.bccAddrs) buf := by
    unfold MailYak.Send
    rw [hb]
  refine ⟨hsend, ?_, ?_, ?_⟩
  · intro x hx
    rw [hsend] at hx
    rcases SendMail_shape m hook s m.host m.auth m.fromAddr (m.toAddrs ++ m.bccAddrs) buf
      with ⟨_, h⟩ | ⟨e, _, h⟩ | ⟨_, _, _, t, h, hP⟩
    · rw [h] at hx; simp at hx
    · rw [h] at hx; simp at hx
    · rw [h] at hx
      have hmem : Action.rcpt x ∈ t := by simpa using hx
      exact List.mem_append.1 ((hP _ hmem).2.2 x rfl)
  · rw [hsend]
    exact rcptsOf_SendMail_prefix m hook s _ _ _ _ buf
  · intro hs hr hok
    rw [hsend] at hok ⊢
    rw [SendMail_of_steps_ok m hook s m.host m.auth m.fromAddr _ buf hs hr hok]
    show rcptsOf (_ ++ [Action.quit, Action.close]) = _
    rw [rcptsOf_append, rcptsOf_prescribed]
    simp [rcptsOf]

/-- Witness of C2: one To, one Cc and one Bcc address, on a server that
enforces the order of the protocol. -/
theorem Send_envelope_is_to_then_bcc_witness :
    buildMime (fun _ => [7])
        { New "h:25" none false with
          fromAddr := "f@x", toAddrs := ["a@x"], ccAddrs := ["c@x"], bccAddrs := ["b@x"] } =
        .ok [7] ∧
      rcptsOf (MailYak.Send
        { New "h:25" none false with
          fromAddr := "f@x", toAddrs := ["a@x"], ccAddrs := ["c@x"], bccAddrs := ["b@x"] }
        none (fun _ => [7]) strictServer).1 = ["a@x", "b@x"] :=
  ⟨rfl, (Send_envelope_is_to_then_bcc
    { New "h:25" none false with
      fromAddr := "f@x", toAddrs := ["a@x"], ccAddrs := ["c@x"], bccAddrs := ["b@x"] }
    none (fun _ => [7]) strictServer [7] rfl).2.2.2 (by decide) (by decide)
    (Or.inl (calls_succeed_of_answeredOk strictServer _ (by decide)))⟩

/-- C3: with clean addresses, when every call this run of `SendMail` makes
before `Quit` succeeds (or, alternatively, when every prescribed call
succeeds in its turn), the calls are exactly: connect, greet, the upgrade iff
`STARTTLS` is advertised, the authentication iff a credential is given and
`AUTH` is advertised, mail-from, one `Rcpt` per recipient in order, data
open, one write of the message bytes as passed, data close, `Quit`, `Close`;
and the result is the result of `Quit`. -/
theorem SendMail_success_sequence (m : MailYak) (hook : Option (TLSConfig → TLSConfig))
    (s : Server) (addr : GoString) (a : Option Auth) (sender : GoString)
    (rcpts : List GoString) (msg : Bytes) (hs : ¬ containsCRLF sender)
    (hr : ∀ r ∈ rcpts, ¬ containsCRLF r)
    (hok : (∀ p act q, (m.SendMail hook s addr a sender rcpts msg).1 = p ++ act :: q →
          act ≠ .quit → act ≠ .close → s.reply p act = none) ∨
        (∀ p act q, prescribed hook m s addr a sender rcpts msg = p ++ act :: q →
          s.reply p act = none)) :
    m.SendMail hook s addr a sender rcpts msg =
      (prescribed hook m s addr a sender rcpts msg ++ [.quit, .close],
        s.reply (prescribed hook m s addr a sender rcpts msg) .quit) :=
  SendMail_of_steps_ok m hook s addr a sender rcpts msg hs hr hok

/-- Witness of C3: a server that enforces the order of the protocol and
advertises `AUTH` only after the upgrade; a credential is given. -/
theorem SendMail_success_sequence_witness :
    (New "h:25" none true).SendMail none strictServer "h:25"
        (some ⟨"pw"⟩) "f@x" ["a@x", "b@x"] [1, 2] =
      ([.dial "h:25", .hello, .startTLS ⟨"mx.example.com", true⟩, .auth ⟨"pw"⟩, .mail "f@x",
        .rcpt "a@x", .rcpt "b@x", .data, .write [1, 2], .closeData, .quit, .close], none) :=
  (SendMail_success_sequence (New "h:25" none true) none strictServer "h:25"
    (some ⟨"pw"⟩) "f@x" ["a@x", "b@x"] [1, 2] (by decide) (by decide)
    (Or.inl (calls_succeed_of_answeredOk strictServer _ (by decide)))).trans rfl

/-- C7: when the addresses are clean and the connect step succeeds, `Close`
is called exactly once, as the last call, whatever the server answers to the
later steps; when validation fails or the connect step fails, `Close` is
never called. -/
theorem SendMail_closes_exactly_once (m : MailYak) (hook : Option (TLSConfig → TLSConfig))
    (s : Server) (addr : GoString) (a : Option Auth) (sender : GoString)
    (rcpts : List GoString) (msg : Bytes) :
    (¬ containsCRLF sender → (∀ r ∈ rcpts, ¬ containsCRLF r) →
        s.reply [] (.dial addr) = none →
        (m.SendMail hook s addr a sender rcpts msg).1.count .close = 1 ∧
          (m.SendMail hook s addr a sender rcpts msg).1.getLast? = some .close) ∧
      ((containsCRLF sender ∨ (∃ r ∈ rcpts, containsCRLF r) ∨
          s.reply [] (.dial addr) ≠ none) →
        Action.close ∉ (m.SendMail hook s addr a sender rcpts msg).1) := by
  rcases SendMail_shape m hook s addr a sender rcpts msg
    with ⟨hbad, h⟩ | ⟨e, hd, h⟩ | ⟨hs, hr, hd, t, h, hP⟩
  · refine ⟨fun hs hr _ => ?_, fun _ => by simp [h]⟩
    rcases hbad with hb | ⟨r, hmem, hb⟩
    · exact absurd hb hs
    · exact absurd hb (hr r hmem)
  · exact ⟨fun _ _ hd2 => by simp [hd] at hd2, fun _ => by simp [h]⟩
  · have hnc : Action.close ∉ t := fun hmem => (hP _ hmem).1 rfl
    refine ⟨fun _ _ _ => ?_, fun hfail => ?_⟩
    · rw [h]
      refine ⟨?_, ?_⟩
      · simp [List.count_cons, List.count_append, List.count_eq_zero.2 hnc]
      · exact List.getLast?_concat _
    · rcases hfail with hb | ⟨r, hmem, hb⟩ | hne
      · exact absurd hb hs
      · exact absurd hb (hr r hmem)
      · exact absurd hd hne

/-- Witness of C7: the server rejects the second of three recipients, and
the connection is still closed exactly once. -/
theorem SendMail_closes_exactly_once_witness :
    ((New "h:25" none false).SendMail none (rejecting "b@x") "h:25" none "f@x"
        ["a@x", "b@x", "c@x"] []).1.count .close = 1 ∧
      ((New "h:25" none false).SendMail none (rejecting "b@x") "h:25" none "f@x"
        ["a@x", "b@x", "c@x"] []).1.getLast? = some .close :=
  (SendMail_closes_exactly_once (New "h:25" none false) none (rejecting "b@x") "h:25" none
    "f@x" ["a@x", "b@x", "c@x"] []).1 (by decide) (by decide) rfl

/-- C4: on a session that is connected and greeted, when `STARTTLS` is not
advertised `StartTLS` is never called and, the authentication being skipped
or successful, the next call is mail-from; when `STARTTLS` is advertised
`StartTLS` is called exactly once, right after the greeting, and if it fails
its error is the result, the run ends there (the error is printed and the
connection closed) and no envelope call is made. -/
theorem SendMail_upgrade_iff_advertised (m : MailYak)
    (hook : Option (TLSConfig → TLSConfig)) (s : Server) (addr : GoString)
    (a : Option Auth) (sender : GoString) (rcpts : List GoString) (msg : Bytes)
    (hs : ¬ containsCRLF sender) (hr : ∀ r ∈ rcpts, ¬ containsCRLF r)
    (hd : s.reply [] (.dial addr) = none) (hh : s.reply [.dial addr] .hello = none) :
    (Extension (s.ext [.dial addr, .hello]) "STARTTLS" = false →
        (∀ act ∈ (m.SendMail hook s addr a sender rcpts msg).1, act.isStartTLS = false) ∧
        ((∀ cred, a = some cred → Extension (s.ext [.dial addr, .hello]) "AUTH" = true →
            s.reply [.dial addr, .hello] (.auth cred) = none) →
          ([.dial addr, .hello] ++ authCalls s a [.dial addr, .hello] ++ [.mail sender]) <+:
            (m.SendMail hook s addr a sender rcpts msg).1)) ∧
      (Extension (s.ext [.dial addr, .hello]) "STARTTLS" = true →
        (m.SendMail hook s addr a sender rcpts msg).1.countP Action.isStartTLS = 1 ∧
        [.dial addr, .hello, .startTLS (tlsConfig hook m s [.dial addr, .hello])] <+:
          (m.SendMail hook s addr a sender rcpts msg).1 ∧
        ∀ err, s.reply [.dial addr, .hello]
            (.startTLS (tlsConfig hook m s [.dial addr, .hello])) = some err →
          m.SendMail hook s addr a sender rcpts msg =
              ([.dial addr, .hello, .startTLS (tlsConfig hook m s [.dial addr, .hello]),
                .println err, .close], some err) ∧
            ∀ act ∈ (m.SendMail hook s addr a sender rcpts msg).1,
              act.isEnvelope = false) := by
  have hrun := SendMail_of_clean m hook s addr a sender rcpts msg hs hr hd
  have hneg : negotiate hook m s a [.dial addr] =
      (startTLSStep hook m s [.dial addr, .hello]).andThen fun h1 => authStep s a h1 :=
    negotiate_of_hello hook m s a [.dial addr] hh
  refine ⟨fun hx => ?_, fun hx => ?_⟩
  · rw [startTLSStep_skipped hook m s _ hx, andThen_ok] at hneg
    refine ⟨?_, fun hauth => ?_⟩
    · obtain ⟨t, ht, hP⟩ := session_extends_from (P := fun act => act.isStartTLS = false)
        hook m s a sender rcpts msg [.dial addr] [.dial addr, .hello] hneg
        (fun _ => rfl) rfl (fun _ _ => rfl) isStartTLS_of_isPayload
      intro act hact
      rw [hrun, ht] at hact
      simp only [List.mem_append, List.mem_cons, List.mem_singleton, List.not_mem_nil,
        or_false] at hact
      rcases hact with ((rfl | rfl) | hmem) | rfl
      · rfl
      · rfl
      · exact hP act hmem
      · rfl
    · rw [authStep_ok s a _ hauth] at hneg
      rw [hrun, session_of_negotiate hook m s a sender rcpts msg _ _ hneg]
      exact (transaction_starts_with_mail s sender rcpts msg _).trans (List.prefix_append _ _)
  · cases hrep : s.reply [.dial addr, .hello]
        (.startTLS (tlsConfig hook m s [.dial addr, .hello])) with
    | some e =>
      rw [startTLSStep_failed hook m s _ hx e hrep, andThen_error] at hneg
      rw [session_of_negotiate_error hook m s a sender rcpts msg _ _ e hneg] at hrun
      have hrun2 : m.SendMail hook s addr a sender rcpts msg =
          ([.dial addr, .hello, .startTLS (tlsConfig hook m s [.dial addr, .hello]),
            .println e, .close], some e) := by
        rw [hrun]; simp
      refine ⟨?_, ?_, fun err herr => ?_⟩
      · rw [hrun2]; simp [List.countP_cons, Action.isStartTLS]
      · rw [hrun2]; exact ⟨[.println e, .close], rfl⟩
      · have hee : e = err := by simpa using herr
        subst hee
        refine ⟨hrun2, ?_⟩
        rw [hrun2]
        intro act hact
        simp only [List.mem_cons, List.mem_singleton, List.not_mem_nil, or_false] at hact
        rcases hact with rfl | rfl | rfl | rfl | rfl <;> rfl
    | none =>
      rw [startTLSStep_upgraded hook m s _ hx hrep, andThen_ok] at hneg
      obtain ⟨t, ht, hP⟩ := session_extends_from (P := fun act => act.isStartTLS = false)
        hook m s a sender rcpts msg [.dial addr] _ hneg
        (fun _ => rfl) rfl (fun _ _ => rfl) isStartTLS_of_isPayload
      have hzero : t.countP Action.isStartTLS = 0 :=
        List.countP_eq_zero.2 fun act hact => by simp [hP act hact]
      refine ⟨?_, ?_, fun err herr => by simp at herr⟩
      · rw [hrun, ht]
        simp [List.countP_append, List.countP_cons, Action.isStartTLS, hzero]
      · rw [hrun, ht]
        exact ⟨t ++ [.close], by simp⟩

/-- Witness of C4: `STARTTLS` is advertised and the upgrade fails. -/
theorem SendMail_upgrade_iff_advertised_witness :
    (New "h:25" none false).SendMail none
        { reply := fun _ act =>
            if act = .startTLS ⟨"mx", false⟩ then some (.failure "tls") else none
          ext := fun _ => some ["STARTTLS"]
          serverName := fun _ => "mx" }
        "h:25" none "f@x" ["a@x"] [1] =
      ([.dial "h:25", .hello, .startTLS ⟨"mx", false⟩, .println (.failure "tls"), .close],
        some (.failure "tls")) :=
  ((SendMail_upgrade_iff_advertised (New "h:25" none false) none
    { reply := fun _ act =>
        if act = .startTLS ⟨"mx", false⟩ then some (.failure "tls") else none
      ext := fun _ => some ["STARTTLS"]
      serverName := fun _ => "mx" }
    "h:25" none "f@x" ["a@x"] [1] (by decide) (by decide) rfl rfl).2 (by decide)).2.2
    (.failure "tls") rfl |>.1

/-- C5: on a session that reaches the authentication step with the history
`h2`, `Auth` is called iff a credential is given and `AUTH` is advertised;
when it is skipped the next call is mail-from; when it is attempted it is the
next call, and if it fails its error is the result, the connection is closed
and no envelope call is made. -/
theorem SendMail_auth_iff_credential_and_advertised (m : MailYak)
    (hook : Option (TLSConfig → TLSConfig)) (s : Server) (addr : GoString)
    (a : Option Auth) (sender : GoString) (rcpts : List GoString) (msg : Bytes)
    (h2 : List Action)
    (hs : ¬ containsCRLF sender) (hr : ∀ r ∈ rcpts, ¬ containsCRLF r)
    (hd : s.reply [] (.dial addr) = none) (hh : s.reply [.dial addr] .hello = none)
    (ht : startTLSStep hook m s [.dial addr, .hello] = (h2, none)) :
    ((∃ cred, Action.auth cred ∈ (m.SendMail hook s addr a sender rcpts msg).1) ↔
        (a ≠ none ∧ Extension (s.ext h2) "AUTH" = true)) ∧
      (¬ (a ≠ none ∧ Extension (s.ext h2) "AUTH" = true) →
        (h2 ++ [.mail sender]) <+: (m.SendMail hook s addr a sender rcpts msg).1) ∧
      (∀ cred, a = some cred → Extension (s.ext h2) "AUTH" = true →
        (h2 ++ [.auth cred]) <+: (m.SendMail hook s addr a sender rcpts msg).1 ∧
        (s.reply h2 (.auth cred) = none →
          (h2 ++ [.auth cred, .mail sender]) <+:
            (m.SendMail hook s addr a sender rcpts msg).1) ∧
        ∀ err, s.reply h2 (.auth cred) = some err →
          m.SendMail hook s addr a sender rcpts msg = (h2 ++ [.auth cred, .close], some err) ∧
            ∀ act ∈ (m.SendMail hook s addr a sender rcpts msg).1,
              act.isEnvelope = false) := by
  have hrun := SendMail_of_clean m hook s addr a sender rcpts msg hs hr hd
  have hneg : negotiate hook m s a [.dial addr] =
      (startTLSStep hook m s [.dial addr, .hello]).andThen fun h1 => authStep s a h1 :=
    negotiate_of_hello hook m s a [.dial addr] hh
  rw [ht, andThen_ok] at hneg
  have hh2 := startTLSStep_history hook m s _ h2 ht
  have hh2env : ∀ act ∈ h2, act.isEnvelope = false ∧ ∀ c, act ≠ .auth c := by
    intro act hact
    rw [hh2] at hact
    simp only [List.mem_append, List.mem_cons, List.mem_singleton, List.not_mem_nil,
      or_false] at hact
    rcases hact with (rfl | rfl) | hmem
    · exact ⟨rfl, by simp⟩
    · exact ⟨rfl, by simp⟩
    · rw [mem_tlsCalls hmem]
      exact ⟨rfl, by simp⟩
  have hattempt : ∀ cred, a = some cred → Extension (s.ext h2) "AUTH" = true →
      (h2 ++ [.auth cred]) <+: (m.SendMail hook s addr a sender rcpts msg).1 ∧
      (s.reply h2 (.auth cred) = none →
        (h2 ++ [.auth cred, .mail sender]) <+:
          (m.SendMail hook s addr a sender rcpts msg).1) ∧
      ∀ err, s.reply h2 (.auth cred) = some err →
        m.SendMail hook s addr a sender rcpts msg = (h2 ++ [.auth cred, .close], some err) ∧
          ∀ act ∈ (m.SendMail hook s addr a sender rcpts msg).1,
            act.isEnvelope = false := by
    intro cred ha hx
    subst ha
    rw [authStep_attempted s cred h2 hx] at hneg
    have hfail : ∀ err, s.reply h2 (.auth cred) = some err →
        m.SendMail hook s addr (some cred) sender rcpts msg =
          (h2 ++ [.auth cred, .close], some err) := by
      intro err herr
      rw [call_error herr] at hneg
      rw [hrun, session_of_negotiate_error hook m s _ sender rcpts msg _ _ err hneg]
      simp
    have hsucc : s.reply h2 (.auth cred) = none →
        (h2 ++ [.auth cred, .mail sender]) <+:
          (m.SendMail hook s addr (some cred) sender rcpts msg).1 := by
      intro hok
      rw [call_ok hok] at hneg
      rw [hrun, session_of_negotiate hook m s _ sender rcpts msg _ _ hneg]
      have := (transaction_starts_with_mail s sender rcpts msg (h2 ++ [.auth cred])).trans
        (List.prefix_append _ [Action.close])
      simpa using this
    refine ⟨?_, hsucc, fun err herr => ⟨hfail err herr, ?_⟩⟩
    · cases hrep : s.reply h2 (.auth cred) with
      | none =>
        refine List.IsPrefix.trans ⟨[.mail sender], ?_⟩ (hsucc hrep)
        simp
      | some err =>
        rw [hfail err hrep]
        exact ⟨[.close], by simp⟩
    · rw [hfail err herr]
      intro act hact
      simp only [List.mem_append, List.mem_cons, List.mem_singleton, List.not_mem_nil,
        or_false] at hact
      rcases hact with hmem | rfl | rfl
      · exact (hh2env act hmem).1
      · rfl
      · rfl
  have hskipped : ¬ (a ≠ none ∧ Extension (s.ext h2) "AUTH" = true) →
      ∃ t, (m.SendMail hook s addr a sender rcpts msg).1 = h2 ++ t ++ [.close] ∧
        (h2 ++ [.mail sender]) <+: (h2 ++ t) ∧ ∀ act ∈ t, ∀ c, act ≠ .auth c := by
    intro hskip
    rw [authStep_skipped s a h2 hskip] at hneg
    have hsess := session_of_negotiate hook m s a sender rcpts msg _ _ hneg
    obtain ⟨t, htr, hP⟩ := transaction_extends (P := fun act => ∀ c, act ≠ .auth c)
      s sender rcpts msg h2 (by simp) (fun _ _ => by simp)
      (fun act hact => by cases act <;> simp [Action.isPayload] at hact <;> simp)
    refine ⟨t, by rw [hrun, hsess, htr], ?_, hP⟩
    rw [← htr]
    exact transaction_starts_with_mail s sender rcpts msg h2
  refine ⟨⟨fun hmem => ?_, fun hcond => ?_⟩, fun hskip => ?_, hattempt⟩
  · by_contra hskip
    obtain ⟨t, htr, _, hP⟩ := hskipped hskip
    obtain ⟨cred, hcred⟩ := hmem
    rw [htr] at hcred
    simp only [List.mem_append, List.mem_singleton] at hcred
    rcases hcred with (hmem | hmem) | hmem
    · exact (hh2env _ hmem).2 cred rfl
    · exact hP _ hmem cred rfl
    · simp at hmem
  · obtain ⟨hne, hx⟩ := hcond
    obtain ⟨cred, rfl⟩ := Option.ne_none_iff_exists'.1 hne
    exact ⟨cred, (hattempt cred rfl hx).1.subset (by simp)⟩
  · obtain ⟨t, htr, hpre, _⟩ := hskipped hskip
    rw [htr]
    exact hpre.trans (List.prefix_append _ _)

/-- Witness of C5: a credential is given, `AUTH` is advertised and the
authentication fails. -/
theorem SendMail_auth_iff_credential_and_advertised_witness :
    (New "h:25" none false).SendMail none
        { reply := fun _ act => if act = .auth ⟨"pw"⟩ then some (.failure "535") else none
          ext := fun _ => some ["AUTH"]
          serverName := fun _ => "mx" }
        "h:25" (some ⟨"pw"⟩) "f@x" ["a@x"] [1] =
      ([.dial "h:25", .hello, .auth ⟨"pw"⟩, .close], some (.failure "535")) :=
  ((SendMail_auth_iff_credential_and_advertised (New "h:25" none false) none
    { reply := fun _ act => if act = .auth ⟨"pw"⟩ then some (.failure "535") else none
      ext := fun _ => some ["AUTH"]
      serverName := fun _ => "mx" }
    "h:25" (some ⟨"pw"⟩) "f@x" ["a@x"] [1] [.dial "h:25", .hello]
    (by decide) (by decide) rfl rfl rfl).2.2 ⟨"pw"⟩ rfl (by decide)).2.2
    (.failure "535") rfl |>.1

/-- C6: when the session reaches the envelope, mail-from succeeds, `Rcpt`
succeeds for the recipients `pre` and fails for the next recipient `x`,
`SendMail` returns a failure, the run stops at that `Rcpt` (then `Close`):
no `Rcpt` is issued for the recipients `post` after it, and the data phase
is not opened, nothing is written and `Quit` is not issued. -/
theorem SendMail_rcpt_rejection_is_fatal (m : MailYak)
    (hook : Option (TLSConfig → TLSConfig)) (s : Server) (addr : GoString)
    (a : Option Auth) (sender : GoString) (pre : List GoString) (x : GoString)
    (post : List GoString) (msg : Bytes) (h0 : List Action) (e : Error)
    (hs : ¬ containsCRLF sender) (hr : ∀ r ∈ pre ++ x :: post, ¬ containsCRLF r)
    (hd : s.reply [] (.dial addr) = none)
    (hn : negotiate hook m s a [.dial addr] = (h0, none))
    (hm : s.reply h0 (.mail sender) = none)
    (hpre : ∀ p y q, pre = p ++ y :: q →
      s.reply (h0 ++ [.mail sender] ++ p.map .rcpt) (.rcpt y) = none)
    (hx : s.reply (h0 ++ [.mail sender] ++ pre.map .rcpt) (.rcpt x) = some e) :
    m.SendMail hook s addr a sender (pre ++ x :: post) msg =
        (h0 ++ [.mail sender] ++ pre.map .rcpt ++ [.rcpt x, .close], some e) ∧
      rcptsOf (m.SendMail hook s addr a sender (pre ++ x :: post) msg).1 = pre ++ [x] ∧
      ∀ act ∈ (m.SendMail hook s addr a sender (pre ++ x :: post) msg).1,
        act.isPayload = false := by
  have hrun := SendMail_rcpt_rejected m hook s addr a sender pre x post msg h0 e hs hr hd hn
    hm hpre hx
  obtain ⟨t, rfl, hP⟩ := negotiate_history hook m s a addr h0 none hn
  have hdial : ∀ act ∈ Action.dial addr :: t, act.isPayload = false ∧ act.isEnvelope = false := by
    intro act hact
    rcases List.mem_cons.1 hact with rfl | hmem
    · exact ⟨rfl, rfl⟩
    · exact hP act hmem
  refine ⟨hrun, ?_, ?_⟩
  · rw [hrun]
    simp only [rcptsOf_append, rcptsOf_map_rcpt,
      rcptsOf_of_not_envelope fun act hact => (hdial act hact).2]
    simp [rcptsOf]
  · rw [hrun]
    intro act hact
    simp only [List.mem_append, List.mem_cons, List.mem_singleton, List.not_mem_nil,
      or_false, List.mem_map] at hact
    rcases hact with ((hmem | rfl) | ⟨y, _, rfl⟩) | rfl | rfl
    · exact (hdial act (by simpa using hmem)).1
    · rfl
    · rfl
    · rfl
    · rfl

/-- Witness of C6: the server rejects the second of three recipients. -/
theorem SendMail_rcpt_rejection_is_fatal_witness :
    (New "h:25" none false).SendMail none (rejecting "b@x") "h:25" none "f@x"
        (["a@x"] ++ "b@x" :: ["c@x"]) [1] =
      ([.dial "h:25", .hello] ++ [.mail "f@x"] ++ ["a@x"].map .rcpt ++ [.rcpt "b@x", .close],
        some (.failure "550 rejected")) :=
  (SendMail_rcpt_rejection_is_fatal (New "h:25" none false) none (rejecting "b@x") "h:25"
    none "f@x" ["a@x"] "b@x" ["c@x"] [1] [.dial "h:25", .hello] (.failure "550 rejected")
    (by decide) (by decide) rfl rfl rfl
    (fun p y q hp => by
      cases p with
      | nil =>
        have hy : y = "a@x" := by simpa using (List.cons.inj hp).1.symm
        subst hy
        decide
      | cons z p1 => simp at hp)
    (by decide)).1

/-- C8: two emails that agree
on the from address, the from name, the To and Bcc lists, the subject, the
host, the attachment filenames in order, the byte lengths of the HTML and
plain bodies and on whether a credential is set have the same `String`
rendering, whatever the credential, the body contents and the attachment
bytes are. -/
theorem String_depends_only_on_redacted_fields (q : GoString → GoString) (m1 m2 : MailYak)
    (hfrom : m1.fromAddr = m2.fromAddr) (hname : m1.fromName = m2.fromName)
    (hto : m1.toAddrs = m2.toAddrs) (hbcc : m1.bccAddrs = m2.bccAddrs)
    (hsubj : m1.subject = m2.subject) (hhost : m1.host = m2.host)
    (hatt : m1.attachments.map (fun a => a.filename) =
      m2.attachments.map (fun a => a.filename))
    (hhtml : m1.html.buf.length = m2.html.buf.length)
    (hplain : m1.plain.buf.length = m2.plain.buf.length)
    (hauth : m1.auth.isSome = m2.auth.isSome) :
    m1.String q = m2.String q := by
  have hatt2 : m1.attachments.map (fun a => "\x7bfilename: " ++ a.filename ++ "\x7d") =
      m2.attachments.map (fun a => "\x7bfilename: " ++ a.filename ++ "\x7d") := by
    have := congrArg (List.map fun f : GoString => "\x7bfilename: " ++ f ++ "\x7d") hatt
    simpa [List.map_map, Function.comp_def] using this
  simp only [MailYak.String, BodyPart.len, hfrom, hname, hto, hbcc, hsubj, hhost, hatt2,
    hhtml, hplain, hauth]

/-- Witness of C8: two emails with different credentials, bodies and
attachment bytes, and the same rendering. -/
theorem String_depends_only_on_redacted_fields_witness :
    MailYak.String
        { New "h:25" (some ⟨"secret-1"⟩) false with
          html := ⟨[1, 2]⟩, attachments := [⟨"a.txt", "text/plain", .ok [1]⟩] }
        plainQuote =
      MailYak.String
        { New "h:25" (some ⟨"secret-2"⟩) true with
          html := ⟨[3, 4]⟩, ccAddrs := ["c@x"],
          attachments := [⟨"a.txt", "image/png", .ok [9, 9, 9]⟩] }
        plainQuote :=
  String_depends_only_on_redacted_fields plainQuote
    { New "h:25" (some ⟨"secret-1"⟩) false with
      html := ⟨[1, 2]⟩, attachments := [⟨"a.txt", "text/plain", .ok [1]⟩] }
    { New "h:25" (some ⟨"secret-2"⟩) true with
      html := ⟨[3, 4]⟩, ccAddrs := ["c@x"],
      attachments := [⟨"a.txt", "image/png", .ok [9, 9, 9]⟩] }
    rfl rfl rfl rfl rfl rfl rfl rfl rfl rfl

/-- C9 as stated fails: the server rejects the second recipient in one run
and the third in another, with the same reply; `SendMail` returns that reply
unchanged in both, so nothing in the returned error tells which address was
rejected. -/
theorem SendMail_rcpt_error_names_no_address :
    ((New "h:25" none false).SendMail none (rejecting "b@x") "h:25" none "f@x"
        ["a@x", "b@x", "c@x"] [1]).2 = some (.failure "550 rejected") ∧
      ((New "h:25" none false).SendMail none (rejecting "c@x") "h:25" none "f@x"
        ["a@x", "b@x", "c@x"] [1]).2 = some (.failure "550 rejected") ∧
      ¬ ∃ offending : Error → GoString,
        (∀ e, ((New "h:25" none false).SendMail none (rejecting "b@x") "h:25" none "f@x"
          ["a@x", "b@x", "c@x"] [1]).2 = some e → offending e = "b@x") ∧
        (∀ e, ((New "h:25" none false).SendMail none (rejecting "c@x") "h:25" none "f@x"
          ["a@x", "b@x", "c@x"] [1]).2 = some e → offending e = "c@x") := by
  have hb : ((New "h:25" none false).SendMail none (rejecting "b@x") "h:25" none "f@x"
      ["a@x", "b@x", "c@x"] [1]).2 = some (.failure "550 rejected") := by decide
  have hc : ((New "h:25" none false).SendMail none (rejecting "c@x") "h:25" none "f@x"
      ["a@x", "b@x", "c@x"] [1]).2 = some (.failure "550 rejected") := by decide
  refine ⟨hb, hc, ?_⟩
  rintro ⟨offending, h1, h2⟩
  have e1 := h1 _ hb
  have e2 := h2 _ hc
  rw [e1] at e2
  exact absurd e2 (by decide)

/-- C9 amended: when `Rcpt` succeeds for the recipients `pre` and fails for
the next recipient `x`, the result of `SendMail` is exactly the error value
that this `Rcpt` call returned, unchanged. -/
theorem SendMail_returns_rcpt_error_unchanged (m : MailYak)
    (hook : Option (TLSConfig → TLSConfig)) (s : Server) (addr : GoString)
    (a : Option Auth) (sender : GoString) (pre : List GoString) (x : GoString)
    (post : List GoString) (msg : Bytes) (h0 : List Action) (e : Error)
    (hs : ¬ containsCRLF sender) (hr : ∀ r ∈ pre ++ x :: post, ¬ containsCRLF r)
    (hd : s.reply [] (.dial addr) = none)
    (hn : negotiate hook m s a [.dial addr] = (h0, none))
    (hm : s.reply h0 (.mail sender) = none)
    (hpre : ∀ p y q, pre = p ++ y :: q →
      s.reply (h0 ++ [.mail sender] ++ p.map .rcpt) (.rcpt y) = none)
    (hx : s.reply (h0 ++ [.mail sender] ++ pre.map .rcpt) (.rcpt x) = some e) :
    (m.SendMail hook s addr a sender (pre ++ x :: post) msg).2 = some e ∧
      (m.SendMail hook s addr a sender (pre ++ x :: post) msg).2 =
        s.reply (h0 ++ [.mail sender] ++ pre.map .rcpt) (.rcpt x) := by
  rw [SendMail_rcpt_rejected m hook s addr a sender pre x post msg h0 e hs hr hd hn hm hpre hx]
  exact ⟨rfl, hx.symm⟩

/-- Witness of C9 amended: the third of three recipients is rejected. -/
theorem SendMail_returns_rcpt_error_unchanged_witness :
    ((New "h:25" none false).SendMail none (rejecting "c@x") "h:25" none "f@x"
        ([] ++ "c@x" :: ["d@x"]) [1]).2 = some (.failure "550 rejected") :=
  (SendMail_returns_rcpt_error_unchanged (New "h:25" none false) none (rejecting "c@x")
    "h:25" none "f@x" [] "c@x" ["d@x"] [1] [.dial "h:25", .hello] (.failure "550 rejected")
    (by decide) (by decide) rfl rfl rfl (fun p y q hp => by simp at hp) (by decide)).1

/-- C10 as stated fails: a Cc address holds a carriage-return and a
line-feed, the message builds, and `Send` opens the connection and completes
the whole session without any error. -/
theorem Send_accepts_crlf_in_cc :
    (∃ c ∈ ccInjected.ccAddrs, containsCRLF c) ∧
      buildMime (fun _ => [1]) ccInjected = .ok [1] ∧
      ccInjected.Send none (fun _ => [1]) (okServer none) =
        ([.dial "h:25", .hello, .mail "f@x", .rcpt "a@x", .data, .write [1], .closeData,
          .quit, .close], none) := by
  refine ⟨by decide, rfl, by decide⟩

/-- C10 amended: when the message builds, `Send` fails with the validation
error and makes no call at all if the sender, a To address or a Bcc address
contains a carriage-return or a line-feed; when none of them does, `Send`
calls `Dial` on the host, whatever the Cc addresses contain. -/
theorem Send_guards_sender_to_and_bcc (m : MailYak) (hook : Option (TLSConfig → TLSConfig))
    (render : MailYak → Bytes) (s : Server) (buf : Bytes)
    (hb : buildMime render m = .ok buf) :
    ((containsCRLF m.fromAddr ∨ ∃ r ∈ m.toAddrs ++ m.bccAddrs, containsCRLF r) →
        m.Send hook render s = ([], some Error.HeaderInjection)) ∧
      (¬ (containsCRLF m.fromAddr ∨ ∃ r ∈ m.toAddrs ++ m.bccAddrs, containsCRLF r) →
        ∃ t, (m.Send hook render s).1 = .dial m.host :: t) := by
  have hsend : m.Send hook render s =
      m.SendMail hook s m.host m.auth m.fromAddr (m.toAddrs ++ m.bccAddrs) buf := by
    unfold MailYak.Send
    rw [hb]
  rw [hsend]
  refine ⟨fun hbad => SendMail_of_crlf m hook s _ _ _ _ buf hbad, fun hclean => ?_⟩
  rcases SendMail_shape m hook s m.host m.auth m.fromAddr (m.toAddrs ++ m.bccAddrs) buf
    with ⟨hbad, _⟩ | ⟨e, _, h⟩ | ⟨_, _, _, t, h, _⟩
  · exact absurd hbad hclean
  · exact ⟨[], by rw [h]⟩
  · exact ⟨t ++ [.close], by rw [h]; simp⟩

/-- Witness of C10 amended: the email with a line break in a Cc address
reaches `Dial`. -/
theorem Send_guards_sender_to_and_bcc_witness :
    buildMime (fun _ => [1]) ccInjected = .ok [1] ∧
      ∃ t, (ccInjected.Send none (fun _ => [1]) (okServer none)).1 = .dial ccInjected.host :: t :=
  ⟨rfl, (Send_guards_sender_to_and_bcc ccInjected none (fun _ => [1]) (okServer none) [1]
    rfl).2 (by decide)⟩

end Mailyak
